import Mathlib

/-!
Verification of the maelstrom workflow engine (Go) against its
natural-language specification.

The Go source is shallowly embedded: Go `map[string]any` values become the
inductive `GoVal` / association-list `GoMap`; every fallible operation
returns `Option`/`Except`; external collaborators (the expr compiler, the
LLM HTTP transport, the JSON decoder, the agent hirer, the OS environment
and clock) are explicit oracle parameters, since the spec declares them
out of scope.  Side effects (tool execution, context merging, runtime
processing) are recorded in explicit traces or threaded state.
-/

namespace Maelstrom

/-- Model of a Go dynamic value (`any`).  The distinct `int` / `int64` /
`float` constructors mirror Go's distinct dynamic types, which the source
discriminates with type assertions.  JSON decoding only ever produces
`null`, `bool`, `float`, `str`, `arr`, `obj`. -/
inductive GoVal where
  | null
  | bool (b : Bool)
  | float (q : Rat)
  | int (n : Int)
  | int64 (n : Int)
  | str (s : String)
  | arr (xs : List GoVal)
  | obj (m : List (String × GoVal))

/-- Model of a Go `map[string]any` as an association list.  Go map
iteration order is unspecified; no embedded operation depends on entry
order except where noted. -/
abbrev GoMap := List (String × GoVal)

/-- Lookup in a `GoMap`: `m[key]` with the `ok` flag folded into `Option`. -/
def mapGet (m : GoMap) (k : String) : Option GoVal :=
  (m.find? (fun p => p.1 == k)).map (·.2)

/-- Assignment `m[key] = v`: replace the first binding or append. -/
def aSet {α : Type} : List (String × α) → String → α → List (String × α)
  | [], k, v => [(k, v)]
  | (k', v') :: rest, k, v =>
      if k' == k then (k, v) :: rest else (k', v') :: aSet rest k v

/-- Generic association-list lookup (for caches and file stores). -/
def aGet {α : Type} (m : List (String × α)) (k : String) : Option α :=
  (m.find? (fun p => p.1 == k)).map (·.2)

/-- Deletion `delete(m, key)`: remove the first binding. -/
def aDel {α : Type} : List (String × α) → String → List (String × α)
  | [], _ => []
  | (k', v') :: rest, k =>
      if k' == k then rest else (k', v') :: aDel rest k

/-- `Context.LoadAll(patch)`: shallow-merge each patch binding into the
context map (statechartx context collaborator). -/
def mergeInto (ctx patch : GoMap) : GoMap :=
  patch.foldl (fun c p => aSet c p.1 p.2) ctx

/-- `getString(cfg, key)` from `registry/statechart/spec.go`: string-typed
lookup defaulting to `""`. -/
def goGetString (cfg : GoMap) (key : String) : String :=
  match mapGet cfg key with
  | some (GoVal.str s) => s
  | _ => ""

end Maelstrom

namespace Maelstrom

/-! ### Decimal printing (`fmt %d`) and parsing (`strconv.Atoi`) -/

/-- Digit accumulation with explicit fuel (`n` itself suffices, since the
quotient shrinks): most significant digit first. -/
def natDigitsAux : Nat → Nat → List Char
  | _, 0 => []
  | 0, _ + 1 => []
  | fuel + 1, n + 1 =>
      natDigitsAux fuel ((n + 1) / 10) ++ [Char.ofNat (48 + (n + 1) % 10)]

/-- Digit list of a positive natural, most significant first (model of the
decimal conversion inside `fmt.Sprintf("%d", ·)`). -/
def natDigits (n : Nat) : List Char := natDigitsAux n n

/-- Decimal rendering of a natural number, model of `fmt.Sprintf("%d", ·)`
for non-negative values. -/
def natDecimal (n : Nat) : String :=
  if n = 0 then "0" else String.mk (natDigits n)

/-- Digit accumulator: `some` of the value of a non-empty all-digit string. -/
def digitsToNat : List Char → Option Nat
  | [] => none
  | cs =>
      cs.foldl
        (fun acc c =>
          match acc with
          | none => none
          | some n => if c.isDigit then some (n * 10 + (c.toNat - 48)) else none)
        (some 0)

/-- Model of `strconv.Atoi` (= `ParseInt(s, 10, 0)`): optional sign then
decimal digits; anything else is an error (`none`). -/
def goAtoi (s : String) : Option Int :=
  match s.data with
  | '-' :: rest => (digitsToNat rest).map (fun n => -(n : Int))
  | '+' :: rest => (digitsToNat rest).map (fun n => (n : Int))
  | cs => (digitsToNat cs).map (fun n => (n : Int))

/-- Go `int(f)` conversion from `float64`: truncation toward zero. -/
def ratTrunc (q : Rat) : Int :=
  if 0 ≤ q then ⌊q⌋ else -⌊-q⌋

/-! ### Substring search (`strings.Contains`) and field splitting -/

/-- `true` iff the first list is a leading segment of the second. -/
def leadsWith : List Char → List Char → Bool
  | [], _ => true
  | _ :: _, [] => false
  | a :: as, b :: bs => a == b && leadsWith as bs

/-- `true` iff `needle` occurs contiguously inside `hay`. -/
def hasSub (needle : List Char) : List Char → Bool
  | [] => needle.isEmpty
  | c :: t => leadsWith needle (c :: t) || hasSub needle t

/-- Model of `strings.Contains(s, sub)`. -/
def goContains (s sub : String) : Bool :=
  hasSub sub.data s.data

/-- Split a character list at every separator satisfying `p` (the
separators are dropped; empty pieces are kept). -/
def splitWhen (p : Char → Bool) : List Char → List (List Char)
  | [] => [[]]
  | c :: rest =>
      if p c then [] :: splitWhen p rest
      else
        match splitWhen p rest with
        | [] => [[c]]
        | g :: gs => (c :: g) :: gs

/-- Model of `strings.Split(s, ",")`. -/
def goSplitComma (s : String) : List String :=
  (splitWhen (fun c => c == ',') s.data).map String.mk

/-- Model of `strings.TrimSpace`: drop whitespace from both ends. -/
def goTrim (s : String) : String :=
  String.mk
    (((s.data.dropWhile Char.isWhitespace).reverse.dropWhile Char.isWhitespace).reverse)

/-- Model of `strings.HasPrefix` / `String.startsWith` (over characters). -/
def goStartsWith (s pre : String) : Bool :=
  leadsWith pre.data s.data

/-- Model of `strings.HasSuffix` (over characters). -/
def goEndsWith (s suf : String) : Bool :=
  leadsWith suf.data.reverse s.data.reverse

/-- Model of `strings.Fields`: split on whitespace, dropping empty pieces. -/
def goFields (s : String) : List String :=
  ((splitWhen Char.isWhitespace s.data).map String.mk).filter (fun p => p ≠ "")

end Maelstrom

namespace Maelstrom

/-! ## Tool registry and policy enforcement (`internal/tools/registry.go`)

Wall-clock time is modelled as a `Nat` count of seconds supplied by the
caller (the Go code reads `time.Now()`); `time.Minute` is 60 of them. -/

/-- `rateLimiter` state: acquisition count and window start, plus the
configured limit. -/
structure RateLimiter where
  count : Nat
  windowStart : Nat
  limit : Nat
deriving DecidableEq

/-- `rateLimiter.TryAcquire`: reset the window once 60 seconds have
elapsed since its start, then grant iff the count is below the limit.
(Go's `now.Sub(windowStart)` is modelled with truncated `Nat`
subtraction: a clock earlier than the window start yields 0, below a
minute, exactly as a negative `Duration` does.) -/
def tryAcquire (rl : RateLimiter) (now : Nat) : Bool × RateLimiter :=
  let rl :=
    if 60 ≤ now - rl.windowStart then
      { rl with windowStart := now, count := 0 }
    else rl
  if rl.limit ≤ rl.count then (false, rl)
  else (true, { rl with count := rl.count + 1 })

/-- Run a sequence of `TryAcquire` calls at the given instants, returning
the number of granted acquisitions and the final limiter state. -/
def runAcquires : RateLimiter → List Nat → Nat × RateLimiter
  | rl, [] => (0, rl)
  | rl, t :: ts =>
      let r := tryAcquire rl t
      let rest := runAcquires r.2 ts
      ((if r.1 then 1 else 0) + rest.1, rest.2)

/-- Key of the per-(tool, limit) limiter: `fmt.Sprintf("%s_%d", ...)`. -/
def limiterKey (toolName : String) (limit : Nat) : String :=
  toolName ++ "_" ++ natDecimal limit

/-- The registry's `rateLimiters sync.Map`, keyed by `limiterKey`. -/
abbrev RLState := List (String × RateLimiter)

/-- `ToolRegistry.getRateLimiter` (for a positive limit): `LoadOrStore` of
a fresh limiter whose window starts now.  Returns the limiter to use and
the updated map. -/
def getRateLimiter (st : RLState) (toolName : String) (limit : Nat) (now : Nat) :
    RateLimiter × RLState :=
  let key := limiterKey toolName limit
  match aGet st key with
  | some rl => (rl, st)
  | none =>
      let nrl : RateLimiter := { count := 0, windowStart := now, limit := limit }
      (nrl, aSet st key nrl)

/-- One policy-gated acquisition for a (tool, limit) pair:
`getRateLimiter` followed by `TryAcquire`, writing the mutated limiter
back at its key (the Go limiter is mutated in place through its pointer). -/
def tryAcquireFor (st : RLState) (toolName : String) (limit : Nat) (now : Nat) :
    Bool × RLState :=
  let g := getRateLimiter st toolName limit now
  let r := tryAcquire g.1 now
  (r.1, aSet g.2 (limiterKey toolName limit) r.2)

/-- Parsed accumulation of the `key:value` policy directives of
`EnforcePolicies`: allow-list, forbid-list and the last well-formed
`rate_limit` value.  `cost` is only logged by the source and carries no
behavior. -/
structure PolicyCfg where
  allowedSet : List String
  forbiddenSet : List String
  rateN : Int
deriving DecidableEq

/-- One step of the policy-parse loop of `EnforcePolicies`: split at the
first `:` (skip when absent or leading), trim both halves, and dispatch on
the key; unknown keys are ignored. -/
def parsePolicy (cfg : PolicyCfg) (pol : String) : PolicyCfg :=
  match pol.data.findIdx? (· == ':') with
  | none => cfg
  | some 0 => cfg
  | some idx =>
      let key := goTrim (String.mk (pol.data.take idx))
      let val := goTrim (String.mk (pol.data.drop (idx + 1)))
      if key = "rate_limit" then
        if goEndsWith val "/min" then
          match goAtoi (goTrim (val.dropRight 4)) with
          | some n => { cfg with rateN := n }
          | none => cfg
        else cfg
      else if key = "allowed" then
        { cfg with allowedSet := cfg.allowedSet ++ (goSplitComma val).map goTrim }
      else if key = "forbidden" then
        { cfg with forbiddenSet := cfg.forbiddenSet ++ (goSplitComma val).map goTrim }
      else cfg

/-- The whole policy-parse loop. -/
def parsePolicies (policies : List String) : PolicyCfg :=
  policies.foldl parsePolicy { allowedSet := [], forbiddenSet := [], rateN := 0 }

/-- The distinct error returns of `EnforcePolicies`. -/
inductive PolicyErr where
  | rateLimited (tool : String) (n : Int)
  | missingCommand
  | commandNotString
  | emptyCommand
  | cmdNotAllowed (cmd : String)
  | forbiddenSub (sub : String) (cmd : String)
deriving DecidableEq

/-- `ToolRegistry.EnforcePolicies`: parse the policy directives, charge
the rate limiter when a positive `rate_limit` is configured, then apply
the `bash_exec` sandbox checks (leading-token allow-list, substring
forbid-list).  Returns the error (if any) and the updated limiter map. -/
def enforcePolicies (st : RLState) (now : Nat) (toolName : String)
    (policies : List String) (params : GoMap) : Option PolicyErr × RLState :=
  let cfg := parsePolicies policies
  let rated :=
    if 0 < cfg.rateN then
      let r := tryAcquireFor st toolName cfg.rateN.toNat now
      (if r.1 then none else some (PolicyErr.rateLimited toolName cfg.rateN), r.2)
    else (none, st)
  match rated with
  | (some e, st') => (some e, st')
  | (none, st') =>
      if toolName = "bash_exec" then
        match mapGet params "command" with
        | none => (some PolicyErr.missingCommand, st')
        | some (GoVal.str cmdStr) =>
            match goFields cmdStr with
            | [] => (some PolicyErr.emptyCommand, st')
            | cmd :: _ =>
                if cfg.allowedSet ≠ [] ∧ cmd ∉ cfg.allowedSet then
                  (some (PolicyErr.cmdNotAllowed cmd), st')
                else
                  match cfg.forbiddenSet.find? (fun fb => goContains cmdStr fb) with
                  | some fb => (some (PolicyErr.forbiddenSub fb cmdStr), st')
                  | none => (none, st')
        | some _ => (some PolicyErr.commandNotString, st')
      else (none, st')

/-- A registered tool: its `Execute` function, modelled as a pure map from
parameters to a result or error (filesystem and network effects folded
into the oracle). -/
structure ToolImpl where
  execute : GoMap → Except String GoVal

/-- Outcome of `ToolRegistry.Execute`: the three exits of the source.
`executed` means the underlying tool's `Execute` function ran. -/
inductive ExecOutcome where
  | notFound (tool : String)
  | policyDenied (e : PolicyErr)
  | executed (r : Except String GoVal)

/-- `ToolRegistry.Execute`: look the tool up, enforce the policies and, on
success only, invoke the underlying tool's `Execute`. -/
def registryExecute (reg : String → Option ToolImpl) (st : RLState) (now : Nat)
    (toolName : String) (params : GoMap) (policies : List String) :
    ExecOutcome × RLState :=
  match reg toolName with
  | none => (ExecOutcome.notFound toolName, st)
  | some tool =>
      match enforcePolicies st now toolName policies params with
      | (some e, st') => (ExecOutcome.policyDenied e, st')
      | (none, st') => (ExecOutcome.executed (tool.execute params), st')

end Maelstrom

namespace Maelstrom

/-! ## Guard/action resolution engine (`registry/statechart/spec.go`)

The expr compiler/evaluator, the LLM transport (`llm.DefaultCaller.Call`)
and the JSON object decoder (`json.Unmarshal` into `map[string]any`) are
external collaborators, modelled as oracle fields of `World`.  The
transcript entries joined into one prompt string by the source are kept
structured (`Msg`): their rendered text feeds only the LLM oracle. -/

/-- One transcript entry of the tool-use loop. -/
inductive Msg where
  | system (hasTools : Bool) (extra : String)
  | user (promptTmpl : String) (ctxData : GoMap) (evtData : GoVal)
  | toolResult (name : String) (content : GoVal)
  | toolFailed (name : String) (err : String)

/-- The prompt handed to the LLM collaborator: either the joined tool-loop
transcript or the single prompt of the simple LLM action (whose pieces are
kept structured). -/
inductive Prompt where
  | loop (msgs : List Msg)
  | simple (name : String) (fromS toS : Int) (ctxData : GoMap) (evtData : GoVal)
      (body : String)

/-- The external collaborators of guard/action resolution.  `parse` models
`json.Unmarshal` of a response string into `map[string]any`; the source
applies this same decoder at both unmarshal sites of the loop. -/
structure World where
  llm : Prompt → Except String String
  parse : String → Option GoMap
  toolsReg : String → Option ToolImpl

/-- Result of one resolved action closure: the returned Go error, the
patch merged into the context (if any), and the trace of underlying tool
`Execute` invocations. -/
structure LoopOutcome where
  error : Option String
  merged : Option GoMap
  toolCalls : List (String × GoMap)

/-- The iteration body of the `llm_with_tools` loop
(`spec.go` lines 436-489), with the remaining iteration count as fuel:

* LLM-call failure returns that error;
* a response that fails to decode as a JSON object is re-decoded by the
  same decoder as a bare patch (merged only if that succeeds) and the loop
  returns a nil error either way;
* a decoded object whose `tool_use` is a non-null object with a string
  `name` of a registered tool and a non-null object `params` executes the
  tool, appends a result/failure transcript entry and continues;
* any other decoded object (including `tool_use` naming an unregistered
  tool or of the wrong shape) is merged into the context as the final
  patch;
* exhausted fuel abandons the loop with no error and no patch. -/
def toolLoopGo (w : World) : Nat → List Msg → LoopOutcome
  | 0, _ => { error := none, merged := none, toolCalls := [] }
  | fuel + 1, msgs =>
      match w.llm (Prompt.loop msgs) with
      | Except.error e => { error := some e, merged := none, toolCalls := [] }
      | Except.ok resp =>
          match w.parse resp with
          | none =>
              -- best-effort secondary parse: the same decoder applied to
              -- the same string
              match w.parse resp with
              | some patch => { error := none, merged := some patch, toolCalls := [] }
              | none => { error := none, merged := none, toolCalls := [] }
          | some respMap =>
              let fin : LoopOutcome :=
                { error := none, merged := some respMap, toolCalls := [] }
              match mapGet respMap "tool_use" with
              | some (GoVal.obj tuMap) =>
                  (match mapGet tuMap "name" with
                   | some (GoVal.str tname) =>
                       (match mapGet tuMap "params" with
                        | some (GoVal.obj tparams) =>
                            (match w.toolsReg tname with
                             | some tool =>
                                 let entry :=
                                   match tool.execute tparams with
                                   | Except.error terr => Msg.toolFailed tname terr
                                   | Except.ok res => Msg.toolResult tname res
                                 let rest := toolLoopGo w fuel (msgs ++ [entry])
                                 { rest with toolCalls := (tname, tparams) :: rest.toolCalls }
                             | none => fin)
                        | _ => fin)
                   | _ => fin)
              | _ => fin

/-- `max_iter` extraction: a `float64` is truncated to `int`, an `int` is
taken as is, anything else (or absence) leaves the default 5. -/
def goMaxIter (lwtCfg : GoMap) : Int :=
  match mapGet lwtCfg "max_iter" with
  | some (GoVal.float q) => ratTrunc q
  | some (GoVal.int n) => n
  | _ => 5

/-- The configured tool names: string elements of the `tools` array. -/
def goToolNames (lwtCfg : GoMap) : List String :=
  match mapGet lwtCfg "tools" with
  | some (GoVal.arr ts) =>
      ts.filterMap (fun v => match v with | GoVal.str s => some s | _ => none)
  | _ => []

/-- The configured tool names found in the registry (those whose schemas
the source collects); `hasTools` is their non-emptiness. -/
def goRegNames (w : World) (lwtCfg : GoMap) : List String :=
  (goToolNames lwtCfg).filter (fun tn => (w.toolsReg tn).isSome)

/-- The `llm_with_tools` action closure (`spec.go` lines 379-490): read
`system` / `prompt` / `max_iter` / `tools` from the action configuration,
force a single iteration when no configured tool is registered, seed the
transcript with the system and user prompts, and run the loop. -/
def toolLoop (w : World) (lwtCfg : GoMap) (ctxData : GoMap) (evtData : GoVal) :
    LoopOutcome :=
  let system := goGetString lwtCfg "system"
  let promptTmpl := goGetString lwtCfg "prompt"
  let maxIter := goMaxIter lwtCfg
  let hasTools := goRegNames w lwtCfg ≠ []
  let maxIter := if hasTools then maxIter else 1
  let msgs := [Msg.system hasTools system, Msg.user promptTmpl ctxData evtData]
  toolLoopGo w maxIter.toNat msgs

end Maelstrom

namespace Maelstrom

/-- The agent-lifecycle collaborator (`AgentHirer`), as error oracles. -/
structure Hirer where
  hire : String → Option String
  retire : String → Option String

/-- The parts of `YamlMachineSpec` that guard/action resolution reads:
the named-action table, the named-guard table and the LLM provider. -/
structure SpecM where
  actions : List (String × GoVal)
  guards : List (String × String)
  llmProvider : String

/-- Inputs of one action invocation: transition-scoped context snapshot,
event payload, and source/target state IDs. -/
structure ActIn where
  ctxData : GoMap
  evtData : GoVal
  fromS : Int
  toS : Int

/-- A resolved action closure, as a function of the collaborator world and
the invocation inputs. -/
abbrev ActionFn := World → ActIn → LoopOutcome

/-- Outcome constructors shared by the non-loop closures. -/
def actOk : LoopOutcome := { error := none, merged := none, toolCalls := [] }

/-- The fallback simple-LLM action closure (`spec.go` lines 506-536): one
LLM call; a call failure or a JSON-decode failure of the reply is logged
and swallowed (nil error); a decoded object is merged into the context. -/
def simpleLLMAction (name actionStr : String) : ActionFn := fun w inp =>
  match w.llm (Prompt.simple name inp.fromS inp.toS inp.ctxData inp.evtData actionStr) with
  | Except.error _ => actOk
  | Except.ok resp =>
      match w.parse resp with
      | none => actOk
      | some patch => { error := none, merged := some patch, toolCalls := [] }

/-- Legacy `{type: "llm"}` normalization: build an `llm_with_tools`
configuration with an empty `tools` array, carrying over non-empty
`system` and `prompt`, and store it under `llm_with_tools` (overwriting
any existing entry, as the source's map write does). -/
def normalizeLegacyLLM (m : GoMap) : GoMap :=
  match mapGet m "type" with
  | some (GoVal.str t) =>
      if t = "llm" then
        let lwt : GoMap := [("tools", GoVal.arr [])]
        let lwt := if goGetString m "system" ≠ "" then
            aSet lwt "system" (GoVal.str (goGetString m "system")) else lwt
        let lwt := if goGetString m "prompt" ≠ "" then
            aSet lwt "prompt" (GoVal.str (goGetString m "prompt")) else lwt
        aSet m "llm_with_tools" (GoVal.obj lwt)
      else m
  | _ => m

/-- `resolveAction` (`spec.go` lines 312-537).  Dispatch on the action
shape:

* `nil` resolves to no action;
* a string is first looked up in the spec's named-action table, the found
  entry becoming the content;
* a name prefixed `hire_agent:` / `retire_agent:` becomes a system action
  that forwards to the hirer collaborator and returns its error (a `nil`
  hirer yields a logging stub);
* map-shaped content is normalized for the legacy `{type: llm}` shorthand
  and, when an `llm_with_tools` entry exists, becomes the tool-use loop
  closure (a non-map `llm_with_tools` value degrades to an empty
  configuration, as the ignored type assertion does);
* any other non-string content resolves to no action;
* remaining string content becomes the simple LLM action, or a logging
  no-op when no provider is configured. -/
def resolveAction (spec : SpecM) (hirer : Option Hirer) (actionSpec : Option GoVal) :
    Option ActionFn :=
  match actionSpec with
  | none => none
  | some av =>
      let name := match av with | GoVal.str s => s | _ => ""
      let content :=
        match av with
        | GoVal.str s =>
            (match aGet spec.actions s with
             | some act => act
             | none => av)
        | _ => av
      if goStartsWith name "hire_agent:" then
        let template := name.drop 11
        match hirer with
        | none => some (fun _ _ => actOk)
        | some h =>
            some (fun _ _ =>
              match h.hire template with
              | some err => { error := some err, merged := none, toolCalls := [] }
              | none => actOk)
      else if goStartsWith name "retire_agent:" then
        let aid := name.drop 13
        match hirer with
        | none => some (fun _ _ => actOk)
        | some h =>
            some (fun _ _ =>
              match h.retire aid with
              | some err => { error := some err, merged := none, toolCalls := [] }
              | none => actOk)
      else
        match content with
        | GoVal.obj m0 =>
            let m := normalizeLegacyLLM m0
            (match mapGet m "llm_with_tools" with
             | some lwtI =>
                 let lwtCfg := match lwtI with | GoVal.obj c => c | _ => []
                 some (fun w inp => toolLoop w lwtCfg inp.ctxData inp.evtData)
             | none => none)
        | GoVal.str actionStr =>
            if spec.llmProvider = "" then some (fun _ _ => actOk)
            else some (simpleLLMAction name actionStr)
        | _ => none

end Maelstrom

namespace Maelstrom

/-! ### Guard resolution (`resolveGuard`, `spec.go` lines 250-309)

The `expr-lang` compiler and evaluator are external collaborators,
modelled as an `ExprLib` oracle over an abstract program type. -/

/-- The expr collaborator: `compile` models `expr.Compile(·, expr.AsBool())`
(`none` = compile error) and `run` models `expr.Run` on an environment
(`Except` = runtime evaluation error; the result is a dynamic value). -/
structure ExprLib (α : Type) where
  compile : String → Option α
  run : α → GoMap → Except String GoVal

/-- A resolved guard closure over the context snapshot and event payload.
(The Go closure's second return value is constantly `nil` in the source,
so the closure is modelled as returning only the boolean.) -/
abbrev GuardFn := GoMap → GoVal → Bool

/-- Evaluation of a compiled guard program against the environment
`{ctx, evt}`: a runtime error evaluates to `true`, a non-boolean result to
`false`, and a boolean result to itself.  The source repeats this closure
verbatim on both the inline and the named-guard paths. -/
def guardEval {α : Type} (lib : ExprLib α) (prog : α) : GuardFn := fun ctxData evtData =>
  match lib.run prog [("ctx", GoVal.obj ctxData), ("evt", evtData)] with
  | Except.error _ => true
  | Except.ok (GoVal.bool b) => b
  | Except.ok _ => false

/-- `resolveGuard`: an empty guard text resolves to no guard (`none`);
otherwise compile the text directly as a boolean expression; on failure
look the text up as a name in the spec's named-guard table and compile
that; if the name is absent or its expression does not compile, resolve to
the constant-`true` guard. -/
def resolveGuard {α : Type} (lib : ExprLib α) (guards : List (String × String))
    (name : String) : Option GuardFn :=
  if name = "" then none
  else
    match lib.compile name with
    | some prog => some (guardEval lib prog)
    | none =>
        match aGet guards name with
        | none => some (fun _ _ => true)
        | some exprStr =>
            match lib.compile exprStr with
            | none => some (fun _ _ => true)
            | some prog => some (guardEval lib prog)

end Maelstrom

namespace Maelstrom

/-! ## Config hierarchy resolver (`config/resolver.go`)

`strconv.ParseFloat` is modelled as an oracle parameter `parseF` (its full
grammar is library behavior); `strconv.ParseInt(·, 10, 64)` is modelled by
`goAtoi`.  `os.Getenv` is the oracle `env` (returning `""` when unset,
like Go). -/

/-- `getLLMMap`: the fragment's `llm` sub-map, or an empty map. -/
def getLLMMap (m : GoMap) : GoMap :=
  match mapGet m "llm" with
  | some (GoVal.obj llm) => llm
  | _ => []

/-- One loop iteration of `getString`: the level yields a value iff it
holds a string under the key. -/
def levelStr (m : GoMap) (key : String) : Option String :=
  match mapGet m key with
  | some (GoVal.str s) => some s
  | _ => none

/-- `getString`: first string-typed hit across action → machine → guard
levels (the source iterates the three llm maps in that order), else the
application default. -/
def rGetString (machineY actionC guardC : GoMap) (key defV : String) : String :=
  match levelStr (getLLMMap actionC) key with
  | some s => s
  | none =>
      match levelStr (getLLMMap machineY) key with
      | some s => s
      | none =>
          match levelStr (getLLMMap guardC) key with
          | some s => s
          | none => defV

/-- One loop iteration of `getStringPtr`: the level yields a value iff it
holds a non-empty string under the key; otherwise the loop continues. -/
def levelStrNE (m : GoMap) (key : String) : Option String :=
  match mapGet m key with
  | some (GoVal.str s) => if s ≠ "" then some s else none
  | _ => none

/-- `getStringPtr`: first non-empty string hit across action → machine →
guard levels, else `none` (the source's loop, one `levelStrNE` step per
level). -/
def rGetStringPtr (machineY actionC guardC : GoMap) (key : String) : Option String :=
  match levelStrNE (getLLMMap actionC) key with
  | some s => some s
  | none =>
      match levelStrNE (getLLMMap machineY) key with
      | some s => some s
      | none => levelStrNE (getLLMMap guardC) key

end Maelstrom

namespace Maelstrom

/-- One loop iteration of `getFloatPtr`: a non-empty string is run through
`ParseFloat` (branch taken even if the parse then fails, skipping the
`float64` arm, exactly as the source's `if`/`else if` does); a `float64`
is taken directly. -/
def levelFloat (parseF : String → Option Rat) (m : GoMap) (key : String) :
    Option Rat :=
  match mapGet m key with
  | some (GoVal.str s) => if s ≠ "" then parseF s else none
  | some (GoVal.float q) => some q
  | _ => none

/-- `getFloatPtr`: first accepted numeric hit across action → machine →
guard levels, else `none`. -/
def rGetFloatPtr (parseF : String → Option Rat) (machineY actionC guardC : GoMap)
    (key : String) : Option Rat :=
  match levelFloat parseF (getLLMMap actionC) key with
  | some q => some q
  | none =>
      match levelFloat parseF (getLLMMap machineY) key with
      | some q => some q
      | none => levelFloat parseF (getLLMMap guardC) key

/-- One loop iteration of `getIntPtr`: a non-empty string is parsed with
`ParseInt(·, 10, 64)`; a `float64` is truncated with `int(·)`; `int` and
`int64` values are taken directly. -/
def levelInt (m : GoMap) (key : String) : Option Int :=
  match mapGet m key with
  | some (GoVal.str s) => if s ≠ "" then goAtoi s else none
  | some (GoVal.float q) => some (ratTrunc q)
  | some (GoVal.int n) => some n
  | some (GoVal.int64 n) => some n
  | _ => none

/-- `getIntPtr`: first accepted integer hit across action → machine →
guard levels, else `none`. -/
def rGetIntPtr (machineY actionC guardC : GoMap) (key : String) : Option Int :=
  match levelInt (getLLMMap actionC) key with
  | some n => some n
  | none =>
      match levelInt (getLLMMap machineY) key with
      | some n => some n
      | none => levelInt (getLLMMap guardC) key

/-- `getStringSlice`: the string elements of an `[]interface{}` value, or
Go's `nil` slice (`none`) when the key is missing or not a slice. -/
def rGetStringSlice (m : GoMap) (key : String) : Option (List String) :=
  match mapGet m key with
  | some (GoVal.arr vs) =>
      some (vs.filterMap (fun v => match v with | GoVal.str s => some s | _ => none))
  | _ => none

/-- `resolveAPIKey`: `env:NAME` indirection through the OS environment
(`env` returns `""` for unset names, like `os.Getenv`); anything else is
returned verbatim. -/
def resolveAPIKey (env : String → String) (raw : String) : String :=
  if goStartsWith raw "env:" then env (raw.drop 4) else raw

/-- The application default record (`AppConfig` fields read by `Resolve`). -/
structure AppConfig where
  DefaultModel : String
  DefaultProvider : String
  DefaultAPIKey : String
  DefaultBaseURL : Option String
  DefaultTemperature : Option Rat
  DefaultMaxTokens : Option Int

/-- `ResolvedMachineConfig`.  Go pointer fields become `Option`;
`ToolPolicies`/`AllowedActions` keep Go's nil/non-nil slice distinction as
`Option (List String)`. -/
structure ResolvedMachineConfig where
  Model : String
  Provider : String
  BaseURL : Option String
  APIKey : String
  Temperature : Option Rat
  MaxTokens : Option Int
  ToolPolicies : Option (List String)
  AllowedActions : Option (List String)

/-- `ConfigHierarchyResolver.Resolve`: each scalar field through its
getter with the application default as fallback; `api_key` additionally
through the `env:` indirection; the two list fields read from the machine
fragment's llm map only. -/
def Resolve (env : String → String) (parseF : String → Option Rat)
    (cfg : AppConfig) (machineY actionC guardC : GoMap) : ResolvedMachineConfig :=
  let baseURL :=
    match rGetStringPtr machineY actionC guardC "base_url" with
    | some u => some u
    | none => cfg.DefaultBaseURL
  let temperature :=
    match rGetFloatPtr parseF machineY actionC guardC "temperature" with
    | some t => some t
    | none => cfg.DefaultTemperature
  let maxTokens :=
    match rGetIntPtr machineY actionC guardC "max_tokens" with
    | some n => some n
    | none => cfg.DefaultMaxTokens
  { Model := rGetString machineY actionC guardC "model" cfg.DefaultModel
    Provider := rGetString machineY actionC guardC "provider" cfg.DefaultProvider
    BaseURL := baseURL
    Temperature := temperature
    MaxTokens := maxTokens
    APIKey := resolveAPIKey env (rGetString machineY actionC guardC "api_key" cfg.DefaultAPIKey)
    ToolPolicies := rGetStringSlice (getLLMMap machineY) "tool_policies"
    AllowedActions := rGetStringSlice (getLLMMap machineY) "allowed_actions" }

end Maelstrom

namespace Maelstrom

/-! ## Machine compilation: transition-target resolution
(`configureRecursive`, `spec.go` lines 190-224) -/

/-- The target-resolution step of `configureRecursive` (lines 207-214):
given the machine root id, the enclosing prefix (the current state's
parent path), the current state's full path and the declared target. -/
def resolveTarget (rootID pfx fullpath target : String) : String :=
  if goStartsWith target (rootID ++ ".") then target
  else if goContains target "." then rootID ++ "." ++ target
  else if pfx ≠ "" ∧ target ≠ fullpath then pfx ++ "." ++ target
  else target

/-- Modelled from the spec: "resolves every transition target into an
absolute path: pass through if already root-prefixed; else prefix with
root id if it contains a separator; else prefix with the current state's
parent unless the target equals the current state" (§4.1).  Written from
the spec's words, to be compared with `resolveTarget`. -/
def resolveTargetSpec (rootID pfx fullpath target : String) : String :=
  if goStartsWith target (rootID ++ ".") then target
  else if goContains target "." then rootID ++ "." ++ target
  else if target = fullpath then target
  else pfx ++ "." ++ target

/-- A declarative state node: its transitions (event name → declared
target) and named children.  Guards, actions, timeouts and markers are
irrelevant to target resolution and omitted. -/
inductive YTree where
  | node (transitions : List (String × String)) (children : List (String × YTree))

/-- The full dot-path of a state (`fullpath` of the declare/configure
passes): the id alone at an empty prefix, else `prefix + "." + id`. -/
def statePath (pfx sid : String) : String :=
  if pfx = "" then sid else pfx ++ "." ++ sid

/-- The configure pass restricted to target resolution: traverse the state
tree depth first, emitting for every declared transition the triple
(state full path, event, resolved absolute target).  `prefix` is threaded
exactly as in `configureRecursive` (the full path of the parent). -/
def configureAll (rootID : String) : List (String × YTree) → String →
    List (String × String × String)
  | [], _ => []
  | (sid, YTree.node tl kids) :: rest, pfx =>
      tl.map (fun t =>
          (statePath pfx sid, t.1, resolveTarget rootID pfx (statePath pfx sid) t.2))
        ++ configureAll rootID kids (statePath pfx sid)
        ++ configureAll rootID rest pfx

/-- The same traversal with the spec-worded target resolution. -/
def configureAllSpec (rootID : String) : List (String × YTree) → String →
    List (String × String × String)
  | [], _ => []
  | (sid, YTree.node tl kids) :: rest, pfx =>
      tl.map (fun t =>
          (statePath pfx sid, t.1, resolveTargetSpec rootID pfx (statePath pfx sid) t.2))
        ++ configureAllSpec rootID kids (statePath pfx sid)
        ++ configureAllSpec rootID rest pfx

end Maelstrom

namespace Maelstrom

/-! ## Instance lifecycle manager (`api/v1/statecharts.go`)

The statechartx runtime primitive is modelled as a value (`RTm`) carrying
a stable identity, the current state id and the list of processed events;
its transition function is the `step` oracle of the machine model `AugM`.
The two incompatible shapes stored in the `instances sync.Map` by
`createInstance` (a `*sync.Map`) and by `sendEvent`'s rebuild path (a
plain `map[string]*statechartx.Runtime`) are modelled by the `CacheVal`
constructors; a failed non-`ok` type assertion is a Go panic, surfaced as
a `panicked` result. -/

/-- An in-memory runtime bound to an instance. -/
structure RTm where
  rtid : Nat
  cur : Int
  processed : List (Int × GoVal)

/-- A value of the `instances sync.Map` for one machine id: either the
`*sync.Map` stored by `createInstance` or the plain map stored by
`sendEvent`'s rebuild path. -/
inductive CacheVal where
  | syncMap (entries : List (String × RTm))
  | plainMap (entries : List (String × RTm))

/-- The durable instance record `{initialContext, history}`. -/
structure InstState where
  initial : GoVal
  history : List (String × GoVal)

/-- Process-wide server state: the durable files (path-keyed), the runtime
cache, the two counters, and the trace of `runtime.Stop` calls. -/
structure SrvState where
  files : List (String × InstState)
  cache : List (String × CacheVal)
  nextInstanceID : Nat
  nextRTID : Nat
  stoppedRts : List Nat

/-- The compiled-machine model consumed by the handlers: event-name map,
state-path map, initial state and the (external) transition function. -/
structure AugM where
  eventIDByName : String → Option Int
  statePathByID : Int → String
  initialStateID : Int
  step : Int → Int → Int

/-- `instancePath`: `instances/<machineID>/<instID>.json`. -/
def instancePath (machineID instID : String) : String :=
  "instances/" ++ machineID ++ "/" ++ instID ++ ".json"

/-- `runtime.ProcessEvent`: step the current state and record the event. -/
def rtProcess (aug : AugM) (rt : RTm) (eid : Int) (data : GoVal) : RTm :=
  { rt with cur := aug.step rt.cur eid, processed := rt.processed ++ [(eid, data)] }

/-- `replayRuntime`: re-deliver every logged event in order; an event name
unknown to the machine aborts the replay with an error. -/
def replayRuntime (aug : AugM) (rt : RTm) : List (String × GoVal) → Except String RTm
  | [] => Except.ok rt
  | (t, d) :: rest =>
      match aug.eventIDByName t with
      | none => Except.error ("replay unknown event \"" ++ t ++ "\"")
      | some eid => replayRuntime aug (rtProcess aug rt eid d) rest

/-- Result of the `createInstance` handler. -/
inductive CreateRes where
  | notFound (msg : String)
  | ok (iid : String) (current : String)
  | panicked (msg : String)
deriving DecidableEq

/-- `createInstance`: resolve the machine (404 when unknown), allocate the
next instance id, persist `{initialContext, history: []}`, start a runtime
from the initial context, and cache it under the machine id inside a
`*sync.Map` (`LoadOrStore(mid, new(sync.Map))` then `Store(iid, rt)`); a
plain-map entry already cached for the machine makes the `*sync.Map`
type assertion panic. -/
def createInstance (M : String → Option AugM) (S : SrvState) (mid : String)
    (initCtx : GoVal) : CreateRes × SrvState :=
  match M mid with
  | none => (CreateRes.notFound ("machine \"" ++ mid ++ "\" not found"), S)
  | some aug =>
      let iid := "i" ++ natDecimal (S.nextInstanceID + 1)
      let path := instancePath mid iid
      let files' := aSet S.files path { initial := initCtx, history := [] }
      let rt : RTm := { rtid := S.nextRTID, cur := aug.initialStateID, processed := [] }
      let S1 := { S with files := files', nextInstanceID := S.nextInstanceID + 1,
                         nextRTID := S.nextRTID + 1 }
      match aGet S.cache mid with
      | some (CacheVal.plainMap _) =>
          (CreateRes.panicked "interface conversion: not *sync.Map", S1)
      | some (CacheVal.syncMap m) =>
          (CreateRes.ok iid (aug.statePathByID rt.cur),
           { S1 with cache := aSet S.cache mid (CacheVal.syncMap (aSet m iid rt)) })
      | none =>
          (CreateRes.ok iid (aug.statePathByID rt.cur),
           { S1 with cache := aSet S.cache mid (CacheVal.syncMap [(iid, rt)]) })

/-- Result of the `sendEvent` handler. -/
inductive SendRes where
  | clientError (code : Nat) (msg : String)
  | serverError (msg : String)
  | ok (current : String) (histLen : Nat)
  | panicked (msg : String)
deriving DecidableEq

/-- `sendEvent`: load the durable state (404 when the file is missing),
resolve the machine (404), fetch the cached runtime — asserting the cache
entry to `*sync.Map`, which panics on a plain-map entry stored by an
earlier rebuild — or rebuild it by starting fresh from the persisted
initial context and replaying the log, storing the rebuilt runtime in a
plain map (which panics when a `*sync.Map` entry already exists);
translate the event type (unknown → 400 naming it), process, append to
the log and persist. -/
def sendEvent (M : String → Option AugM) (S : SrvState) (mid iid : String)
    (evtType : String) (data : GoVal) : SendRes × SrvState :=
  let path := instancePath mid iid
  match aGet S.files path with
  | none => (SendRes.clientError 404 "instance not found", S)
  | some state =>
      match M mid with
      | none => (SendRes.clientError 404 ("machine \"" ++ mid ++ "\" not found"), S)
      | some aug =>
          -- cache load (line 177-183): `v.(*sync.Map)` without `ok`
          let cacheLook : Except String (Option RTm) :=
            match aGet S.cache mid with
            | some (CacheVal.plainMap _) =>
                Except.error "interface conversion: not *sync.Map"
            | some (CacheVal.syncMap m) => Except.ok (aGet m iid)
            | none => Except.ok none
          match cacheLook with
          | Except.error msg => (SendRes.panicked msg, S)
          | Except.ok found =>
              -- rebuild when no cached runtime (lines 184-211)
              let rebuilt : Except (SendRes × SrvState) (RTm × SrvState) :=
                match found with
                | some rt => Except.ok (rt, S)
                | none =>
                    let rt0 : RTm :=
                      { rtid := S.nextRTID, cur := aug.initialStateID, processed := [] }
                    match replayRuntime aug rt0 state.history with
                    | Except.error e =>
                        Except.error
                          (SendRes.serverError ("replay failed: " ++ e),
                           { S with nextRTID := S.nextRTID + 1 })
                    | Except.ok rt =>
                        match aGet S.cache mid with
                        | some (CacheVal.syncMap _) =>
                            -- LoadOrStore returned the existing *sync.Map;
                            -- the plain-map assertion (line 208) panics
                            Except.error
                              (SendRes.panicked "interface conversion: not map[string]*Runtime",
                               { S with nextRTID := S.nextRTID + 1 })
                        | some (CacheVal.plainMap m) =>
                            Except.ok (rt,
                              { S with nextRTID := S.nextRTID + 1,
                                       cache := aSet S.cache mid (CacheVal.plainMap (aSet m iid rt)) })
                        | none =>
                            Except.ok (rt,
                              { S with nextRTID := S.nextRTID + 1,
                                       cache := aSet S.cache mid (CacheVal.plainMap [(iid, rt)]) })
              match rebuilt with
              | Except.error out => out
              | Except.ok (rt, S1) =>
                  match aug.eventIDByName evtType with
                  | none =>
                      (SendRes.clientError 400 ("event type \"" ++ evtType ++ "\" not found"), S1)
                  | some eid =>
                      let rt2 := rtProcess aug rt eid data
                      -- the Go runtime is mutated through its pointer;
                      -- write it back wherever it is cached
                      let cache2 :=
                        match aGet S1.cache mid with
                        | some (CacheVal.syncMap m) =>
                            if (aGet m iid).isSome then
                              aSet S1.cache mid (CacheVal.syncMap (aSet m iid rt2))
                            else S1.cache
                        | some (CacheVal.plainMap m) =>
                            if (aGet m iid).isSome then
                              aSet S1.cache mid (CacheVal.plainMap (aSet m iid rt2))
                            else S1.cache
                        | none => S1.cache
                      let hist' := state.history ++ [(evtType, data)]
                      let files' := aSet S1.files path { state with history := hist' }
                      (SendRes.ok (aug.statePathByID rt2.cur) hist'.length,
                       { S1 with files := files', cache := cache2 })

/-- Result of the `deleteInstance` handler. -/
inductive DelRes where
  | ok
  | serverError (msg : String)
deriving DecidableEq

/-- `deleteInstance`: remove the durable file (a missing file is not an
error), then — only when the cache entry for the machine is a plain map
(the non-`ok` assertion of line 256) — stop and evict the cached runtime. -/
def deleteInstance (S : SrvState) (mid iid : String) : DelRes × SrvState :=
  let path := instancePath mid iid
  let files' := aDel S.files path
  let S1 := { S with files := files' }
  match aGet S1.cache mid with
  | some (CacheVal.plainMap m) =>
      (match aGet m iid with
       | some rt =>
           (DelRes.ok,
            { S1 with stoppedRts := S1.stoppedRts ++ [rt.rtid],
                      cache := aSet S1.cache mid (CacheVal.plainMap (aDel m iid)) })
       | none => (DelRes.ok, S1))
  | _ => (DelRes.ok, S1)

end Maelstrom

namespace Maelstrom

/-! ## Theorems -/

/-- The LLM oracle always requests a registered tool: every response
decodes to an object whose `tool_use` is an object with a string `name`
bound in the registry and object-shaped `params`. -/
def AlwaysToolUse (w : World) : Prop :=
  ∀ msgs, ∃ resp m tu tname tparams tool,
    w.llm (Prompt.loop msgs) = Except.ok resp ∧
    w.parse resp = some m ∧
    mapGet m "tool_use" = some (GoVal.obj tu) ∧
    mapGet tu "name" = some (GoVal.str tname) ∧
    mapGet tu "params" = some (GoVal.obj tparams) ∧
    w.toolsReg tname = some tool

/-- Under `AlwaysToolUse`, every loop iteration executes one tool and
continues: the run consumes all its fuel, executing exactly `fuel` tools,
with no error and no patch. -/
theorem toolLoopGo_always_tool (w : World) (h : AlwaysToolUse w) :
    ∀ (fuel : Nat) (msgs : List Msg),
      (toolLoopGo w fuel msgs).error = none ∧
      (toolLoopGo w fuel msgs).merged = none ∧
      (toolLoopGo w fuel msgs).toolCalls.length = fuel := by
  intro fuel
  induction fuel with
  | zero => intro msgs; exact ⟨rfl, rfl, rfl⟩
  | succ n ih =>
      intro msgs
      obtain ⟨resp, m, tu, tname, tparams, tool, h1, h2, h3, h4, h5, h6⟩ := h msgs
      simp only [toolLoopGo, h1, h2, h3, h4, h5, h6]
      obtain ⟨e1, e2, e3⟩ :=
        ih (msgs ++ [match tool.execute tparams with
                     | Except.error terr => Msg.toolFailed tname terr
                     | Except.ok res => Msg.toolResult tname res])
      exact ⟨e1, e2, by simp [e3]⟩

end Maelstrom

namespace Maelstrom

/-- C4: For every tool-use loop action configured with `max_iter = N`
(`N ≥ 1`) and at least one registered tool, if on every iteration the LLM
response is a JSON object whose `tool_use` names a registered tool with
object-shaped params, then the tool is executed exactly `N` times, no
context patch is merged into the context, and the loop terminates without
surfacing an error. -/
theorem c4_tool_loop_exhausts_max_iter (w : World) (lwtCfg : GoMap)
    (ctxData : GoMap) (evtData : GoVal) (N : Nat)
    (hMax : mapGet lwtCfg "max_iter" = some (GoVal.int (N : Int)))
    (hN : 1 ≤ N)
    (hTools : goRegNames w lwtCfg ≠ [])
    (hLLM : AlwaysToolUse w) :
    (toolLoop w lwtCfg ctxData evtData).error = none ∧
    (toolLoop w lwtCfg ctxData evtData).merged = none ∧
    (toolLoop w lwtCfg ctxData evtData).toolCalls.length = N := by
  have hmi : goMaxIter lwtCfg = (N : Int) := by simp [goMaxIter, hMax]
  unfold toolLoop
  simp only [hmi, if_pos hTools, Int.toNat_natCast]
  exact toolLoopGo_always_tool w hLLM N _

/-- Concrete data reused across loop-related witnesses: a registered
`bash_exec` tool, a response whose `tool_use` always names it, and a
forbid-list policy that would reject the command. -/
def cexTool : ToolImpl := { execute := fun _ => Except.ok (GoVal.str "done") }

def cexReg : String → Option ToolImpl :=
  fun n => if n = "bash_exec" then some cexTool else none

def cexParams : GoMap := [("command", GoVal.str "rm -rf /tmp/x")]

def cexRespMap : GoMap :=
  [("tool_use", GoVal.obj [("name", GoVal.str "bash_exec"),
                           ("params", GoVal.obj cexParams)])]

def cexWorld : World :=
  { llm := fun _ => Except.ok "resp"
    parse := fun s => if s = "resp" then some cexRespMap else none
    toolsReg := cexReg }

def cexPolicies : List String := ["forbidden:rm"]

def c4cfg : GoMap :=
  [("max_iter", GoVal.int 3), ("tools", GoVal.arr [GoVal.str "bash_exec"])]

theorem c4_witness :
    mapGet c4cfg "max_iter" = some (GoVal.int ((3 : Nat) : Int)) ∧
    (toolLoop cexWorld c4cfg [] GoVal.null).error = none ∧
    (toolLoop cexWorld c4cfg [] GoVal.null).merged = none ∧
    (toolLoop cexWorld c4cfg [] GoVal.null).toolCalls.length = 3 := by
  have h := c4_tool_loop_exhausts_max_iter cexWorld c4cfg [] GoVal.null 3
    (by rfl) (by norm_num) (by decide)
    (fun msgs => ⟨"resp", cexRespMap,
      [("name", GoVal.str "bash_exec"), ("params", GoVal.obj cexParams)],
      "bash_exec", cexParams, cexTool, rfl, rfl, rfl, rfl, rfl, rfl⟩)
  exact ⟨rfl, h.1, h.2.1, h.2.2⟩

end Maelstrom

namespace Maelstrom

/-- C10: For every tool-use loop iteration in which the LLM response
string fails to decode as a JSON object, the action terminates immediately
with a nil error and no patch is merged into the context: the best-effort
secondary parse applies the same decoder (`json.Unmarshal` into
`map[string]any`) to the same string and therefore necessarily fails
whenever the primary parse failed. -/
theorem c10_parse_failure_terminates (w : World) (fuel : Nat) (msgs : List Msg)
    (resp : String)
    (hresp : w.llm (Prompt.loop msgs) = Except.ok resp)
    (hparse : w.parse resp = none) :
    toolLoopGo w (fuel + 1) msgs =
      { error := none, merged := none, toolCalls := [] } := by
  simp only [toolLoopGo, hresp, hparse]

def c10World : World :=
  { llm := fun _ => Except.ok "plain text, not JSON"
    parse := fun _ => none
    toolsReg := fun _ => none }

theorem c10_witness :
    c10World.llm (Prompt.loop []) = Except.ok "plain text, not JSON" ∧
    c10World.parse "plain text, not JSON" = none ∧
    toolLoopGo c10World 1 [] =
      { error := none, merged := none, toolCalls := [] } :=
  ⟨rfl, rfl, c10_parse_failure_terminates c10World 0 [] _ rfl rfl⟩

end Maelstrom

namespace Maelstrom

def cexHirer : Hirer :=
  { hire := fun _ => some "max agents reached", retire := fun _ => none }

def specEmpty : SpecM := { actions := [], guards := [], llmProvider := "" }

def cexActIn : ActIn := { ctxData := [], evtData := GoVal.null, fromS := 0, toS := 1 }

/-- C2 counterexample: the `hire_agent` system action propagates the
collaborator's error instead of returning nil, refuting "every resolved
action closure returns a nil error". -/
theorem c2_counterexample :
    (resolveAction specEmpty (some cexHirer) (some (GoVal.str "hire_agent:basic"))).map
        (fun f => (f cexWorld cexActIn).error)
      = some (some "max agents reached") := rfl

/-- Every loop transcript gets a successful LLM reply. -/
def LLMNeverFails (w : World) : Prop :=
  ∀ msgs, ∃ r, w.llm (Prompt.loop msgs) = Except.ok r

/-- Helper: when the LLM calls themselves succeed, the tool-use loop
never surfaces an error (parse failures, unregistered tools and tool
execution failures are all swallowed). -/
theorem toolLoopGo_error_none (w : World) (hOK : LLMNeverFails w) :
    ∀ (fuel : Nat) (msgs : List Msg), (toolLoopGo w fuel msgs).error = none := by
  intro fuel
  induction fuel with
  | zero => intro msgs; rfl
  | succ n ih =>
      intro msgs
      obtain ⟨r, hr⟩ := hOK msgs
      simp only [toolLoopGo, hr]
      cases hp : w.parse r with
      | none => simp [hp]
      | some m =>
          simp only [hp]
          split
          · split
            · split
              · split
                · simp [ih]
                · rfl
              · rfl
            · rfl
          · rfl

/-- C2 (amended): failures are swallowed at the point of failure for the
simple LLM action (always a nil error) and inside the tool-use loop body
(a nil error whenever the LLM calls succeed); but an LLM-call failure
inside the tool-use loop, and a failed `HireAgent`/`RetireAgent`
collaborator call, are returned as the action's error. -/
theorem c2_amended :
    (∀ (name body : String) (w : World) (inp : ActIn),
        (simpleLLMAction name body w inp).error = none) ∧
    (∀ (w : World), LLMNeverFails w →
        ∀ (fuel : Nat) (msgs : List Msg), (toolLoopGo w fuel msgs).error = none) ∧
    (∀ (w : World) (fuel : Nat) (msgs : List Msg) (e : String),
        w.llm (Prompt.loop msgs) = Except.error e →
        (toolLoopGo w (fuel + 1) msgs).error = some e) ∧
    (∀ (spec : SpecM) (h : Hirer) (s : String) (w : World) (inp : ActIn),
        goStartsWith s "hire_agent:" = true →
        (resolveAction spec (some h) (some (GoVal.str s))).map
            (fun f => (f w inp).error)
          = some (h.hire (s.drop 11))) ∧
    (∀ (spec : SpecM) (h : Hirer) (s : String) (w : World) (inp : ActIn),
        goStartsWith s "hire_agent:" = false →
        goStartsWith s "retire_agent:" = true →
        (resolveAction spec (some h) (some (GoVal.str s))).map
            (fun f => (f w inp).error)
          = some (h.retire (s.drop 13))) := by
  refine ⟨?_, ?_, ?_, ?_, ?_⟩
  · intro name body w inp
    unfold simpleLLMAction
    cases hc : w.llm (Prompt.simple name inp.fromS inp.toS inp.ctxData inp.evtData body) with
    | error e => rfl
    | ok resp => cases hp : w.parse resp <;> simp [hp, actOk]
  · intro w hOK fuel msgs; exact toolLoopGo_error_none w hOK fuel msgs
  · intro w fuel msgs e he
    simp only [toolLoopGo, he]
  · intro spec h s w inp hpre
    simp only [resolveAction, hpre, if_true]
    cases hh : h.hire (s.drop 11) <;> simp [hh, actOk]
  · intro spec h s w inp hpre1 hpre2
    simp only [resolveAction, hpre1, hpre2, if_true, Bool.false_eq_true, if_false]
    cases hh : h.retire (s.drop 13) <;> simp [hh, actOk]

theorem c2_amended_witness :
    (simpleLLMAction "a" "do it" cexWorld cexActIn).error = none ∧
    LLMNeverFails cexWorld ∧
    (toolLoopGo cexWorld 2 []).error = none ∧
    (resolveAction specEmpty (some cexHirer) (some (GoVal.str "retire_agent:x7"))).map
        (fun f => (f cexWorld cexActIn).error)
      = some none := by
  have hOK : LLMNeverFails cexWorld := fun _ => ⟨"resp", rfl⟩
  refine ⟨c2_amended.1 "a" "do it" cexWorld cexActIn, hOK,
          c2_amended.2.1 cexWorld hOK 2 [], ?_⟩
  have := c2_amended.2.2.2.2 specEmpty cexHirer "retire_agent:x7" cexWorld cexActIn
    (by decide) (by decide)
  simpa using this

end Maelstrom

namespace Maelstrom

def c1cfg : GoMap :=
  [("max_iter", GoVal.int 1), ("tools", GoVal.arr [GoVal.str "bash_exec"])]

/-- C1 counterexample: the `forbidden:rm` policy rejects the command
`rm -rf /tmp/x` for `bash_exec` (so `ToolRegistry.Execute` would deny it),
yet a tool invocation requested by the LLM inside the tool-use loop
executes the tool anyway — the loop calls `Get` + `Execute` directly and
never consults the policies. -/
theorem c1_counterexample :
    (enforcePolicies [] 0 "bash_exec" cexPolicies cexParams).1
      = some (PolicyErr.forbiddenSub "rm" "rm -rf /tmp/x")
    ∧ (toolLoop cexWorld c1cfg [] GoVal.null).toolCalls
      = [("bash_exec", cexParams)] := by
  exact ⟨rfl, rfl⟩

/-- C1 (amended): through `ToolRegistry.Execute`, a policy rejection
returns the policy error and the underlying tool's `Execute` function is
not called; but a tool invocation requested by the LLM inside the
tool-use loop is executed directly via the registry's `Get`, with no
policy enforcement on that path. -/
theorem c1_amended :
    (∀ (reg : String → Option ToolImpl) (st : RLState) (now : Nat)
        (toolName : String) (params : GoMap) (policies : List String)
        (tool : ToolImpl) (e : PolicyErr) (st' : RLState),
        reg toolName = some tool →
        enforcePolicies st now toolName policies params = (some e, st') →
        registryExecute reg st now toolName params policies
          = (ExecOutcome.policyDenied e, st')) ∧
    (∀ (w : World) (fuel : Nat) (msgs : List Msg) (resp : String) (m tu : GoMap)
        (tname : String) (tparams : GoMap) (tool : ToolImpl),
        w.llm (Prompt.loop msgs) = Except.ok resp →
        w.parse resp = some m →
        mapGet m "tool_use" = some (GoVal.obj tu) →
        mapGet tu "name" = some (GoVal.str tname) →
        mapGet tu "params" = some (GoVal.obj tparams) →
        w.toolsReg tname = some tool →
        ∃ rest, (toolLoopGo w (fuel + 1) msgs).toolCalls
          = (tname, tparams) :: rest) := by
  constructor
  · intro reg st now toolName params policies tool e st' hreg henf
    simp only [registryExecute, hreg, henf]
  · intro w fuel msgs resp m tu tname tparams tool h1 h2 h3 h4 h5 h6
    refine ⟨(toolLoopGo w fuel
      (msgs ++ [match tool.execute tparams with
                | Except.error terr => Msg.toolFailed tname terr
                | Except.ok res => Msg.toolResult tname res])).toolCalls, ?_⟩
    simp only [toolLoopGo, h1, h2, h3, h4, h5, h6]

theorem c1_amended_witness :
    cexReg "bash_exec" = some cexTool ∧
    enforcePolicies [] 0 "bash_exec" cexPolicies cexParams
      = (some (PolicyErr.forbiddenSub "rm" "rm -rf /tmp/x"), []) ∧
    registryExecute cexReg [] 0 "bash_exec" cexParams cexPolicies
      = (ExecOutcome.policyDenied (PolicyErr.forbiddenSub "rm" "rm -rf /tmp/x"), []) ∧
    (∃ rest, (toolLoopGo cexWorld 1
        [Msg.system true "", Msg.user "" [] GoVal.null]).toolCalls
      = ("bash_exec", cexParams) :: rest) := by
  refine ⟨rfl, rfl, ?_, ?_⟩
  · exact c1_amended.1 cexReg [] 0 "bash_exec" cexParams cexPolicies cexTool
      (PolicyErr.forbiddenSub "rm" "rm -rf /tmp/x") [] rfl rfl
  · exact c1_amended.2 cexWorld 0 [Msg.system true "", Msg.user "" [] GoVal.null]
      "resp" cexRespMap
      [("name", GoVal.str "bash_exec"), ("params", GoVal.obj cexParams)]
      "bash_exec" cexParams cexTool rfl rfl rfl rfl rfl rfl

end Maelstrom

namespace Maelstrom

/-- C5: for every non-empty guard text: if it compiles as a boolean
expression, the resolved guard evaluates that program against the context
snapshot and event payload; otherwise the entry under that name in the
spec's named-guard table is compiled and used; if neither compiles (or the
name is absent from the table), the resolved guard returns `true` for
every input.  At evaluation time, a runtime evaluation error yields
`true`, a non-boolean result yields `false`, and a boolean result is
returned as is.  (An empty guard text denotes an undeclared guard and
resolves to no guard at all.) -/
theorem c5_guard_resolution {α : Type} (lib : ExprLib α)
    (guards : List (String × String)) (name : String) (hname : name ≠ "") :
    (∀ prog, lib.compile name = some prog →
        resolveGuard lib guards name = some (guardEval lib prog)) ∧
    (lib.compile name = none →
        ∀ exprStr prog, aGet guards name = some exprStr →
          lib.compile exprStr = some prog →
          resolveGuard lib guards name = some (guardEval lib prog)) ∧
    (lib.compile name = none → aGet guards name = none →
        resolveGuard lib guards name = some (fun _ _ => true)) ∧
    (lib.compile name = none →
        ∀ exprStr, aGet guards name = some exprStr →
          lib.compile exprStr = none →
          resolveGuard lib guards name = some (fun _ _ => true)) ∧
    (∀ prog ctxData evtData e,
        lib.run prog [("ctx", GoVal.obj ctxData), ("evt", evtData)] = Except.error e →
        guardEval lib prog ctxData evtData = true) ∧
    (∀ prog ctxData evtData b,
        lib.run prog [("ctx", GoVal.obj ctxData), ("evt", evtData)]
          = Except.ok (GoVal.bool b) →
        guardEval lib prog ctxData evtData = b) ∧
    (∀ prog ctxData evtData r,
        lib.run prog [("ctx", GoVal.obj ctxData), ("evt", evtData)] = Except.ok r →
        (∀ b, r ≠ GoVal.bool b) →
        guardEval lib prog ctxData evtData = false) := by
  refine ⟨?_, ?_, ?_, ?_, ?_, ?_, ?_⟩
  · intro prog hc
    simp [resolveGuard, hname, hc]
  · intro hc exprStr prog hg hc2
    simp [resolveGuard, hname, hc, hg, hc2]
  · intro hc hg
    simp [resolveGuard, hname, hc, hg]
  · intro hc exprStr hg hc2
    simp [resolveGuard, hname, hc, hg, hc2]
  · intro prog ctxData evtData e hrun
    simp [guardEval, hrun]
  · intro prog ctxData evtData b hrun
    simp [guardEval, hrun]
  · intro prog ctxData evtData r hrun hnb
    cases r <;> simp [guardEval, hrun] <;> exact absurd rfl (hnb _)

/-- A concrete expr collaborator for the C5 witness: only the text
`ctx.ok` compiles; running it yields the boolean `true`. -/
def c5Lib : ExprLib Unit :=
  { compile := fun s => if s = "ctx.ok" then some () else none
    run := fun _ _ => Except.ok (GoVal.bool true) }

theorem c5_witness :
    ("ctx.ok" : String) ≠ "" ∧
    resolveGuard c5Lib [] "ctx.ok" = some (guardEval c5Lib ()) ∧
    guardEval c5Lib () [] GoVal.null = true ∧
    resolveGuard c5Lib [] "other" = some (fun _ _ => true) := by
  have hne : ("ctx.ok" : String) ≠ "" := by decide
  have hne2 : ("other" : String) ≠ "" := by decide
  refine ⟨hne, (c5_guard_resolution c5Lib [] "ctx.ok" hne).1 () rfl, ?_, ?_⟩
  · exact (c5_guard_resolution c5Lib [] "ctx.ok" hne).2.2.2.2.2.1 () [] GoVal.null true rfl
  · exact ((c5_guard_resolution c5Lib [] "other" hne2).2.2.1) rfl rfl

end Maelstrom

namespace Maelstrom

/-- Pointwise agreement of the source's target resolution with the spec's
wording, for a non-empty parent prefix (which the configure pass
guarantees whenever the root id is non-empty). -/
theorem resolveTarget_eq_spec (rootID pfx fullpath target : String)
    (hpfx : pfx ≠ "") :
    resolveTarget rootID pfx fullpath target
      = resolveTargetSpec rootID pfx fullpath target := by
  unfold resolveTarget resolveTargetSpec
  by_cases h1 : goStartsWith target (rootID ++ ".") = true
  · simp [h1]
  · by_cases h2 : goContains target "." = true
    · simp [h1, h2]
    · by_cases h3 : target = fullpath <;> simp [h1, h2, h3, hpfx]

/-- A non-empty prefix extended with a separator and a child id is
non-empty. -/
theorem extended_prefix_ne (pfx sid : String) (hpfx : pfx ≠ "") :
    pfx ++ "." ++ sid ≠ "" := by
  intro h
  have hl := congrArg String.length h
  simp [String.length_append] at hl
  exact absurd hl.1.2 (by decide)

/-- C6: during compilation, the depth-first configure pass resolves every
transition target exactly as the spec words it — pass through if already
root-prefixed; else prefix with the root id if it contains a separator;
else prefix with the current state's parent path unless the target equals
the current state — at every state of the tree (the parent prefix starts
at the root id and stays non-empty). -/
theorem c6_target_resolution (rootID : String) :
    ∀ (states : List (String × YTree)) (pfx : String), pfx ≠ "" →
      configureAll rootID states pfx = configureAllSpec rootID states pfx := by
  intro states pfx
  induction states, pfx using configureAll.induct rootID with
  | case1 pfx => intro _; simp [configureAll, configureAllSpec]
  | case2 sid tl kids rest pfx ihk ihr =>
      intro hpfx
      have hfp : statePath pfx sid ≠ "" := by
        simpa [statePath, if_neg hpfx] using extended_prefix_ne pfx sid hpfx
      simp only [configureAll, configureAllSpec]
      rw [ihk hfp, ihr hpfx]
      congr 1
      congr 1
      exact List.map_congr_left
        (fun t _ => by rw [resolveTarget_eq_spec rootID pfx _ t.2 hpfx])

end Maelstrom

namespace Maelstrom

def c6tree : List (String × YTree) :=
  [("green", YTree.node
      [("next", "red"), ("jump", "sub.a"), ("abs", "root.red")]
      [("inner", YTree.node [("up", "green")] [])]),
   ("red", YTree.node [] [])]

theorem c6_witness :
    ("root" : String) ≠ "" ∧
    configureAll "root" c6tree "root" = configureAllSpec "root" c6tree "root" ∧
    configureAll "root" c6tree "root" =
      [("root.green", "next", "root.red"),
       ("root.green", "jump", "root.sub.a"),
       ("root.green", "abs", "root.red"),
       ("root.green.inner", "up", "root.green.green")] := by
  refine ⟨by decide, c6_target_resolution "root" c6tree "root" (by decide), ?_⟩
  simp [c6tree, configureAll, resolveTarget, statePath, goStartsWith, goContains,
        leadsWith, hasSub]

end Maelstrom

namespace Maelstrom

/-! ### C7: spec-worded field picking

Modelled from the spec: "Resolve picks each scalar field from the action
fragment's llm map if present with an accepted type, otherwise from the
machine fragment, otherwise from the guard fragment, otherwise from the
application default" (§4.2 / data-model invariants).  `pickSpec` /
`pickOptSpec` transcribe that sentence; the `accept…` functions state
which dynamic values each field kind accepts. -/

def pickSpec {α : Type} (accept : GoVal → Option α) (llmA llmM llmG : GoMap)
    (key : String) (defV : α) : α :=
  match (mapGet llmA key).bind accept with
  | some x => x
  | none =>
      match (mapGet llmM key).bind accept with
      | some x => x
      | none =>
          match (mapGet llmG key).bind accept with
          | some x => x
          | none => defV

def pickOptSpec {α : Type} (accept : GoVal → Option α) (llmA llmM llmG : GoMap)
    (key : String) (defV : Option α) : Option α :=
  match (mapGet llmA key).bind accept with
  | some x => some x
  | none =>
      match (mapGet llmM key).bind accept with
      | some x => some x
      | none =>
          match (mapGet llmG key).bind accept with
          | some x => some x
          | none => defV

/-- A plain string field accepts any string value. -/
def acceptStr : GoVal → Option String
  | GoVal.str s => some s
  | _ => none

/-- A pointer string field accepts only non-empty strings. -/
def acceptStrNE : GoVal → Option String
  | GoVal.str s => if s ≠ "" then some s else none
  | _ => none

/-- A float field accepts a non-empty parseable string or a `float64`. -/
def acceptFloatV (parseF : String → Option Rat) : GoVal → Option Rat
  | GoVal.str s => if s ≠ "" then parseF s else none
  | GoVal.float q => some q
  | _ => none

/-- An int field accepts a non-empty decimal string, a truncated
`float64`, an `int` or an `int64`. -/
def acceptIntV : GoVal → Option Int
  | GoVal.str s => if s ≠ "" then goAtoi s else none
  | GoVal.float q => some (ratTrunc q)
  | GoVal.int n => some n
  | GoVal.int64 n => some n
  | _ => none

theorem levelStr_eq_bind (m : GoMap) (key : String) :
    levelStr m key = (mapGet m key).bind acceptStr := by
  unfold levelStr
  cases h : mapGet m key with
  | none => rfl
  | some v => cases v <;> rfl

theorem levelStrNE_eq_bind (m : GoMap) (key : String) :
    levelStrNE m key = (mapGet m key).bind acceptStrNE := by
  unfold levelStrNE
  cases h : mapGet m key with
  | none => rfl
  | some v => cases v <;> rfl

theorem levelFloat_eq_bind (parseF : String → Option Rat) (m : GoMap) (key : String) :
    levelFloat parseF m key = (mapGet m key).bind (acceptFloatV parseF) := by
  unfold levelFloat
  cases h : mapGet m key with
  | none => rfl
  | some v => cases v <;> rfl

theorem levelInt_eq_bind (m : GoMap) (key : String) :
    levelInt m key = (mapGet m key).bind acceptIntV := by
  unfold levelInt
  cases h : mapGet m key with
  | none => rfl
  | some v => cases v <;> rfl

theorem rGetString_eq_pick (machineY actionC guardC : GoMap) (key defV : String) :
    rGetString machineY actionC guardC key defV
      = pickSpec acceptStr (getLLMMap actionC) (getLLMMap machineY)
          (getLLMMap guardC) key defV := by
  unfold rGetString pickSpec
  rw [levelStr_eq_bind, levelStr_eq_bind, levelStr_eq_bind]
  cases hA : (mapGet (getLLMMap actionC) key).bind acceptStr <;>
    simp only [hA] <;>
  cases hM : (mapGet (getLLMMap machineY) key).bind acceptStr <;>
    simp only [hM] <;>
  cases hG : (mapGet (getLLMMap guardC) key).bind acceptStr <;>
    simp only [hG]

theorem rGetStringPtr_eq_pick (machineY actionC guardC : GoMap) (key : String)
    (defV : Option String) :
    (match rGetStringPtr machineY actionC guardC key with
     | some u => some u
     | none => defV)
      = pickOptSpec acceptStrNE (getLLMMap actionC) (getLLMMap machineY)
          (getLLMMap guardC) key defV := by
  unfold rGetStringPtr pickOptSpec
  rw [levelStrNE_eq_bind, levelStrNE_eq_bind, levelStrNE_eq_bind]
  cases hA : (mapGet (getLLMMap actionC) key).bind acceptStrNE <;>
    simp only [hA] <;>
  cases hM : (mapGet (getLLMMap machineY) key).bind acceptStrNE <;>
    simp only [hM] <;>
  cases hG : (mapGet (getLLMMap guardC) key).bind acceptStrNE <;>
    simp only [hG]

theorem rGetFloatPtr_eq_pick (parseF : String → Option Rat)
    (machineY actionC guardC : GoMap) (key : String) (defV : Option Rat) :
    (match rGetFloatPtr parseF machineY actionC guardC key with
     | some u => some u
     | none => defV)
      = pickOptSpec (acceptFloatV parseF) (getLLMMap actionC) (getLLMMap machineY)
          (getLLMMap guardC) key defV := by
  unfold rGetFloatPtr pickOptSpec
  rw [levelFloat_eq_bind, levelFloat_eq_bind, levelFloat_eq_bind]
  cases hA : (mapGet (getLLMMap actionC) key).bind (acceptFloatV parseF) <;>
    simp only [hA] <;>
  cases hM : (mapGet (getLLMMap machineY) key).bind (acceptFloatV parseF) <;>
    simp only [hM] <;>
  cases hG : (mapGet (getLLMMap guardC) key).bind (acceptFloatV parseF) <;>
    simp only [hG]

theorem rGetIntPtr_eq_pick (machineY actionC guardC : GoMap) (key : String)
    (defV : Option Int) :
    (match rGetIntPtr machineY actionC guardC key with
     | some u => some u
     | none => defV)
      = pickOptSpec acceptIntV (getLLMMap actionC) (getLLMMap machineY)
          (getLLMMap guardC) key defV := by
  unfold rGetIntPtr pickOptSpec
  rw [levelInt_eq_bind, levelInt_eq_bind, levelInt_eq_bind]
  cases hA : (mapGet (getLLMMap actionC) key).bind acceptIntV <;>
    simp only [hA] <;>
  cases hM : (mapGet (getLLMMap machineY) key).bind acceptIntV <;>
    simp only [hM] <;>
  cases hG : (mapGet (getLLMMap guardC) key).bind acceptIntV <;>
    simp only [hG]

end Maelstrom

namespace Maelstrom

/-- C7: `Resolve` picks every scalar field (model, provider, api_key,
base_url, temperature, max_tokens) from the action fragment's llm map if
present with an accepted type, otherwise from the machine fragment,
otherwise from the guard fragment, otherwise from the application default
(`api_key` additionally passing through the `env:` indirection); the
list-valued fields `tool_policies` and `allowed_actions` are read only
from the machine fragment, with no cross-level merge (they are invariant
under any change of the action and guard fragments). -/
theorem c7_config_precedence (env : String → String)
    (parseF : String → Option Rat) (cfg : AppConfig)
    (machineY actionC guardC : GoMap) :
    (Resolve env parseF cfg machineY actionC guardC).Model
        = pickSpec acceptStr (getLLMMap actionC) (getLLMMap machineY)
            (getLLMMap guardC) "model" cfg.DefaultModel ∧
    (Resolve env parseF cfg machineY actionC guardC).Provider
        = pickSpec acceptStr (getLLMMap actionC) (getLLMMap machineY)
            (getLLMMap guardC) "provider" cfg.DefaultProvider ∧
    (Resolve env parseF cfg machineY actionC guardC).APIKey
        = resolveAPIKey env
            (pickSpec acceptStr (getLLMMap actionC) (getLLMMap machineY)
              (getLLMMap guardC) "api_key" cfg.DefaultAPIKey) ∧
    (Resolve env parseF cfg machineY actionC guardC).BaseURL
        = pickOptSpec acceptStrNE (getLLMMap actionC) (getLLMMap machineY)
            (getLLMMap guardC) "base_url" cfg.DefaultBaseURL ∧
    (Resolve env parseF cfg machineY actionC guardC).Temperature
        = pickOptSpec (acceptFloatV parseF) (getLLMMap actionC) (getLLMMap machineY)
            (getLLMMap guardC) "temperature" cfg.DefaultTemperature ∧
    (Resolve env parseF cfg machineY actionC guardC).MaxTokens
        = pickOptSpec acceptIntV (getLLMMap actionC) (getLLMMap machineY)
            (getLLMMap guardC) "max_tokens" cfg.DefaultMaxTokens ∧
    (Resolve env parseF cfg machineY actionC guardC).ToolPolicies
        = rGetStringSlice (getLLMMap machineY) "tool_policies" ∧
    (Resolve env parseF cfg machineY actionC guardC).AllowedActions
        = rGetStringSlice (getLLMMap machineY) "allowed_actions" ∧
    (∀ actionC' guardC',
        (Resolve env parseF cfg machineY actionC' guardC').ToolPolicies
            = (Resolve env parseF cfg machineY actionC guardC).ToolPolicies ∧
        (Resolve env parseF cfg machineY actionC' guardC').AllowedActions
            = (Resolve env parseF cfg machineY actionC guardC).AllowedActions) := by
  refine ⟨?_, ?_, ?_, ?_, ?_, ?_, rfl, rfl, fun _ _ => ⟨rfl, rfl⟩⟩
  · exact rGetString_eq_pick machineY actionC guardC "model" cfg.DefaultModel
  · exact rGetString_eq_pick machineY actionC guardC "provider" cfg.DefaultProvider
  · exact congrArg (resolveAPIKey env)
      (rGetString_eq_pick machineY actionC guardC "api_key" cfg.DefaultAPIKey)
  · exact rGetStringPtr_eq_pick machineY actionC guardC "base_url" cfg.DefaultBaseURL
  · exact rGetFloatPtr_eq_pick parseF machineY actionC guardC "temperature"
      cfg.DefaultTemperature
  · exact rGetIntPtr_eq_pick machineY actionC guardC "max_tokens" cfg.DefaultMaxTokens

end Maelstrom

namespace Maelstrom

/-- Counting lemma for a limiter whose window stays un-elapsed: starting
at count `c ≤ N`, a sequence of acquisitions at instants inside
`[t0, t0 + 60)` grants exactly `min length (N - c)` of them and ends at
count `c + min length (N - c)` with the window start unchanged. -/
theorem runAcquires_window (N t0 : Nat) :
    ∀ (ts : List Nat) (c : Nat),
      (∀ t ∈ ts, t0 ≤ t ∧ t < t0 + 60) → c ≤ N →
      runAcquires ⟨c, t0, N⟩ ts
        = (min ts.length (N - c), ⟨c + min ts.length (N - c), t0, N⟩) := by
  intro ts
  induction ts with
  | nil => intro c _ _; simp [runAcquires]
  | cons t ts ih =>
      intro c hts hc
      have ht := hts t (by simp)
      have hlt : ¬ 60 ≤ t - t0 := by omega
      have hrest : ∀ t' ∈ ts, t0 ≤ t' ∧ t' < t0 + 60 :=
        fun t' h' => hts t' (by simp [h'])
      by_cases hcN : N ≤ c
      · rw [runAcquires]
        simp only [tryAcquire, if_neg hlt, if_pos hcN]
        rw [ih c hrest hc]
        have h0 : N - c = 0 := by omega
        simp [h0]
      · rw [runAcquires]
        simp only [tryAcquire, if_neg hlt, if_neg hcN]
        rw [ih (c + 1) hrest (by omega)]
        simp only [Prod.mk.injEq, RateLimiter.mk.injEq, List.length_cons, if_true,
          inf_eq_min]
        refine ⟨by omega, by omega, trivial, trivial⟩

end Maelstrom

namespace Maelstrom

/-- `tryAcquire` after the window has elapsed: the window resets and the
acquisition is granted (for any positive limit), with the window now
starting at the current instant. -/
theorem tryAcquire_after_window (rl : RateLimiter) (now : Nat)
    (helapsed : 60 ≤ now - rl.windowStart) (hlim : 1 ≤ rl.limit) :
    tryAcquire rl now = (true, ⟨1, now, rl.limit⟩) := by
  simp only [tryAcquire, if_pos helapsed]
  have : ¬ rl.limit ≤ 0 := by omega
  simp [this]

theorem aGet_aSet_ne {α : Type} (k k' : String) (v : α) (h : k ≠ k') :
    ∀ m : List (String × α), aGet (aSet m k v) k' = aGet m k' := by
  have hkk : (k == k') = false := by simp [h]
  intro m
  induction m with
  | nil => simp [aGet, aSet, List.find?, hkk]
  | cons p rest ih =>
      rcases p with ⟨a, b⟩
      by_cases hak : a = k
      · subst hak
        simp [aSet, aGet, List.find?, hkk]
      · have hakb : (a == k) = false := by simp [hak]
        by_cases hak' : a = k'
        · subst hak'
          simp [aSet, aGet, List.find?, hakb]
        · have hakb' : (a == k') = false := by simp [hak']
          simp only [aSet, hakb, Bool.false_eq_true, if_false, aGet, List.find?,
            hakb']
          simpa [aGet] using ih

/-! ### Injectivity of the limiter key `"%s_%d"` -/

theorem natDigitsAux_no_underscore :
    ∀ (fuel n : Nat), '_' ∉ natDigitsAux fuel n := by
  intro fuel
  induction fuel with
  | zero => intro n; cases n <;> simp [natDigitsAux]
  | succ f ih =>
      intro n
      cases n with
      | zero => simp [natDigitsAux]
      | succ n =>
          rw [natDigitsAux]
          intro hmem
          rcases List.mem_append.mp hmem with h | h
          · exact ih _ h
          · have hd : (n + 1) % 10 < 10 := Nat.mod_lt _ (by norm_num)
            have : Char.ofNat (48 + (n + 1) % 10) ≠ '_' := by
              revert hd
              generalize (n + 1) % 10 = d
              revert d
              decide
            simp only [List.mem_singleton] at h
            exact this h.symm

/-- Decimal digits never include an underscore. -/
theorem natDigits_no_underscore : ∀ n : Nat, '_' ∉ natDigits n :=
  fun n => natDigitsAux_no_underscore n n

/-- Left fold reading decimal digits back into a number. -/
def decodeNat (cs : List Char) : Nat :=
  cs.foldl (fun a c => a * 10 + (c.toNat - 48)) 0

theorem decodeNat_natDigitsAux :
    ∀ (fuel n : Nat), n ≤ fuel → decodeNat (natDigitsAux fuel n) = n := by
  intro fuel
  induction fuel with
  | zero =>
      intro n hn
      have : n = 0 := Nat.le_zero.mp hn
      subst this
      rfl
  | succ f ih =>
      intro n hn
      cases n with
      | zero => rfl
      | succ n =>
          rw [natDigitsAux]
          have hq : (n + 1) / 10 ≤ f := by
            have := Nat.div_lt_self (Nat.succ_pos n) (by norm_num : (1:Nat) < 10)
            omega
          have hd : (n + 1) % 10 < 10 := Nat.mod_lt _ (by norm_num)
          have htn : (Char.ofNat (48 + (n + 1) % 10)).toNat - 48 = (n + 1) % 10 := by
            revert hd
            generalize (n + 1) % 10 = d
            revert d
            decide
          have ihq := ih _ hq
          unfold decodeNat at ihq ⊢
          rw [List.foldl_append]
          simp only [List.foldl_cons, List.foldl_nil, ihq, htn]
          omega

theorem decodeNat_natDigits : ∀ n : Nat, decodeNat (natDigits n) = n :=
  fun n => decodeNat_natDigitsAux n n (Nat.le_refl n)

theorem natDecimal_inj (m n : Nat) (h : natDecimal m = natDecimal n) : m = n := by
  have hd : (natDecimal m).data = (natDecimal n).data := by rw [h]
  unfold natDecimal at hd
  by_cases hm : m = 0 <;> by_cases hn : n = 0 <;> simp [hm, hn] at hd ⊢
  · have := decodeNat_natDigits n
    rw [← hd] at this
    simp [decodeNat] at this
    omega
  · have := decodeNat_natDigits m
    rw [hd] at this
    simp [decodeNat] at this
    omega
  · have h1 := decodeNat_natDigits m
    have h2 := decodeNat_natDigits n
    rw [hd, h2] at h1
    exact h1.symm

/-- Splitting at a separator character absent from both leading parts is
unambiguous. -/
theorem append_sep_inj : ∀ (xs xs' ys ys' : List Char),
    '_' ∉ xs → '_' ∉ xs' → xs ++ '_' :: ys = xs' ++ '_' :: ys' →
    xs = xs' ∧ ys = ys' := by
  intro xs
  induction xs with
  | nil =>
      intro xs' ys ys' _ hx' h
      cases xs' with
      | nil => simpa using h
      | cons c t =>
          simp only [List.nil_append, List.cons_append, List.cons.injEq] at h
          exact absurd (h.1 ▸ List.mem_cons_self c t) hx'
  | cons c t ih =>
      intro xs' ys ys' hx hx' h
      cases xs' with
      | nil =>
          simp only [List.cons_append, List.nil_append, List.cons.injEq] at h
          exact absurd (h.1 ▸ List.mem_cons_self c t) hx
      | cons c' t' =>
          simp only [List.cons_append, List.cons.injEq] at h
          obtain ⟨rfl, h2⟩ := h
          have := ih t' ys ys' (fun hm => hx (List.mem_cons_of_mem _ hm))
            (fun hm => hx' (List.mem_cons_of_mem _ hm)) h2
          exact ⟨by rw [this.1], this.2⟩

theorem string_data_inj (s t : String) (h : s.data = t.data) : s = t := by
  cases s; cases t; simp_all

/-- The `fmt.Sprintf("%s_%d")` limiter key is injective on
(tool name, limit) pairs: decimal digits contain no underscore, so the
segment after the last underscore determines the limit and the rest the
tool name. -/
theorem limiterKey_inj (a b : String) (m k : Nat)
    (h : limiterKey a m = limiterKey b k) : a = b ∧ m = k := by
  have hd : (a.data ++ '_' :: (natDecimal m).data)
      = (b.data ++ '_' :: (natDecimal k).data) := by
    have := congrArg String.data h
    simpa [limiterKey, String.data_append] using this
  have hrev := congrArg List.reverse hd
  simp only [List.reverse_append, List.reverse_cons] at hrev
  have hrev' : (natDecimal m).data.reverse ++ '_' :: a.data.reverse
      = (natDecimal k).data.reverse ++ '_' :: b.data.reverse := by
    simpa [List.append_assoc] using hrev
  have hnm : '_' ∉ (natDecimal m).data.reverse := by
    intro hmem
    rw [List.mem_reverse] at hmem
    unfold natDecimal at hmem
    by_cases hm : m = 0 <;> simp [hm] at hmem
    · exact natDigits_no_underscore m hmem
  have hnk : '_' ∉ (natDecimal k).data.reverse := by
    intro hmem
    rw [List.mem_reverse] at hmem
    unfold natDecimal at hmem
    by_cases hk : k = 0 <;> simp [hk] at hmem
    · exact natDigits_no_underscore k hmem
  obtain ⟨h1, h2⟩ := append_sep_inj _ _ _ _ hnm hnk hrev'
  constructor
  · exact string_data_inj a b (List.reverse_injective h2)
  · exact natDecimal_inj m k
      (string_data_inj _ _ (List.reverse_injective h1))

end Maelstrom

namespace Maelstrom

/-- An acquisition for one (tool, limit) pair never touches the limiter
state of a different pair. -/
theorem tryAcquireFor_other_pair (st : RLState) (n1 : String) (l1 : Nat)
    (n2 : String) (l2 : Nat) (now : Nat) (h : ¬(n1 = n2 ∧ l1 = l2)) :
    aGet (tryAcquireFor st n1 l1 now).2 (limiterKey n2 l2)
      = aGet st (limiterKey n2 l2) := by
  have hk : limiterKey n1 l1 ≠ limiterKey n2 l2 :=
    fun he => h (limiterKey_inj _ _ _ _ he)
  unfold tryAcquireFor getRateLimiter
  cases hg : aGet st (limiterKey n1 l1) with
  | some rl =>
      simp only [hg]
      exact aGet_aSet_ne _ _ _ hk st
  | none =>
      simp only [hg]
      rw [aGet_aSet_ne _ _ _ hk, aGet_aSet_ne _ _ _ hk]

/-- C8: for a rate-limit policy of `N` per minute on a tool: within a
window in which less than 60 seconds have elapsed since the window start,
at most `N` acquisitions are granted (`min length N` of them) and the
`(N+1)`-th invocation is denied; once 60 seconds or more have elapsed
since the window start, the window resets and the next invocation is
granted; and the window state is maintained independently per
(tool name, limit) pair — acquiring for one pair leaves every other
pair's limiter untouched. -/
theorem c8_rate_limit_window :
    (∀ (t0 N : Nat) (ts : List Nat),
        (∀ t ∈ ts, t0 ≤ t ∧ t < t0 + 60) →
        (runAcquires ⟨0, t0, N⟩ ts).1 = min ts.length N) ∧
    (∀ (t0 N : Nat) (ts : List Nat) (t : Nat),
        (∀ u ∈ ts, t0 ≤ u ∧ u < t0 + 60) → ts.length = N →
        t0 ≤ t → t < t0 + 60 →
        (tryAcquire (runAcquires ⟨0, t0, N⟩ ts).2 t).1 = false) ∧
    (∀ (rl : RateLimiter) (now : Nat),
        60 ≤ now - rl.windowStart → 1 ≤ rl.limit →
        tryAcquire rl now = (true, ⟨1, now, rl.limit⟩)) ∧
    (∀ (st : RLState) (n1 : String) (l1 : Nat) (n2 : String) (l2 : Nat)
        (now : Nat), ¬(n1 = n2 ∧ l1 = l2) →
        aGet (tryAcquireFor st n1 l1 now).2 (limiterKey n2 l2)
          = aGet st (limiterKey n2 l2)) := by
  refine ⟨?_, ?_, tryAcquire_after_window, tryAcquireFor_other_pair⟩
  · intro t0 N ts hts
    rw [runAcquires_window N t0 ts 0 hts (Nat.zero_le N)]
    simp
  · intro t0 N ts t hts hlen ht1 ht2
    rw [runAcquires_window N t0 ts 0 hts (Nat.zero_le N)]
    have hmin : min ts.length (N - 0) = N := by omega
    rw [hmin]
    have hlt : ¬ 60 ≤ t - t0 := by omega
    simp [tryAcquire, hlt]

theorem c8_witness :
    (∀ t ∈ [0, 10, 20], 0 ≤ t ∧ t < 0 + 60) ∧
    (runAcquires ⟨0, 0, 2⟩ [0, 10, 20]).1 = min 3 2 ∧
    (tryAcquire (runAcquires ⟨0, 0, 2⟩ [0, 10]).2 30).1 = false ∧
    tryAcquire ⟨2, 0, 2⟩ 60 = (true, ⟨1, 60, 2⟩) ∧
    aGet (tryAcquireFor [] "bash_exec" 2 0).2 (limiterKey "web_search" 2)
      = aGet ([] : RLState) (limiterKey "web_search" 2) := by
  refine ⟨by decide, ?_, ?_, ?_, ?_⟩
  · simpa using c8_rate_limit_window.1 0 2 [0, 10, 20] (by decide)
  · exact c8_rate_limit_window.2.1 0 2 [0, 10] 30 (by decide) rfl
      (by norm_num) (by norm_num)
  · exact c8_rate_limit_window.2.2.1 ⟨2, 0, 2⟩ 60 (by norm_num) (by norm_num)
  · exact c8_rate_limit_window.2.2.2 [] "bash_exec" 2 "web_search" 2 0 (by decide)

end Maelstrom

namespace Maelstrom

/-- A two-state traffic-light machine model: `next` is the only event;
`root.green` is initial, every step lands in `root.red`. -/
def augT : AugM :=
  { eventIDByName := fun e => if e = "next" then some 1 else none
    statePathByID := fun i => if i = 0 then "root.green" else "root.red"
    initialStateID := 0
    step := fun _ _ => 1 }

def machinesT : String → Option AugM := fun mid => if mid = "m" then some augT else none

/-- Server state right after a process restart: the durable file of
instance `(m, i1)` exists with an empty history, and the runtime cache is
empty. -/
def restartState : SrvState :=
  { files := [(instancePath "m" "i1", { initial := GoVal.obj [], history := [] })]
    cache := []
    nextInstanceID := 1
    nextRTID := 0
    stoppedRts := [] }

/-- C3 (code bug): after a restart, the FIRST delivery of the unknown
event type `bogus` to the existing instance does return a 400 naming
`bogus` with the durable file untouched — but that request's rebuild path
caches the rebuilt runtime as a plain map, so the SECOND delivery of the
same request panics on the handler's own `*sync.Map` type assertion
(line 178 reads what line 210 stored) before the event-type check is ever
reached, instead of returning the client error the claim requires. -/
theorem c3_unknown_event_panic :
    (sendEvent machinesT restartState "m" "i1" "bogus" GoVal.null).1
      = SendRes.clientError 400 "event type \"bogus\" not found" ∧
    (sendEvent machinesT restartState "m" "i1" "bogus" GoVal.null).2.files
      = restartState.files ∧
    (sendEvent machinesT
        (sendEvent machinesT restartState "m" "i1" "bogus" GoVal.null).2
        "m" "i1" "bogus" GoVal.null).1
      = SendRes.panicked "interface conversion: not *sync.Map" ∧
    (sendEvent machinesT
        (sendEvent machinesT restartState "m" "i1" "bogus" GoVal.null).2
        "m" "i1" "bogus" GoVal.null).2.files
      = restartState.files := by
  refine ⟨rfl, rfl, rfl, rfl⟩

end Maelstrom

namespace Maelstrom

def emptyState : SrvState :=
  { files := [], cache := [], nextInstanceID := 0, nextRTID := 0, stoppedRts := [] }

/-- C9 (code bug): deleting an instance right after creating it removes
the durable file, but the runtime cached at creation is neither stopped
nor evicted: `createInstance` caches it inside a `*sync.Map`, while
`deleteInstance`'s cleanup only recognizes a plain
`map[string]*statechartx.Runtime` (the comma-ok assertion of line 256
fails silently), contradicting "any cached in-memory runtime — including
one cached at instance creation — is stopped and evicted". -/
theorem c9_delete_leaves_creation_cached_runtime :
    (createInstance machinesT emptyState "m" (GoVal.obj [])).1
      = CreateRes.ok "i1" "root.green" ∧
    (deleteInstance (createInstance machinesT emptyState "m" (GoVal.obj [])).2
        "m" "i1").1 = DelRes.ok ∧
    aGet (deleteInstance (createInstance machinesT emptyState "m" (GoVal.obj [])).2
        "m" "i1").2.files (instancePath "m" "i1") = none ∧
    (deleteInstance (createInstance machinesT emptyState "m" (GoVal.obj [])).2
        "m" "i1").2.stoppedRts = [] ∧
    aGet (deleteInstance (createInstance machinesT emptyState "m" (GoVal.obj [])).2
        "m" "i1").2.cache "m"
      = some (CacheVal.syncMap [("i1", { rtid := 0, cur := 0, processed := [] })]) := by
  refine ⟨rfl, rfl, rfl, rfl, rfl⟩

end Maelstrom
